import Mathlib

/-! # Model of the museum walkthrough locomotion & collision subsystem

A shallow embedding of the first-person `Controls` component (target-velocity
computation from held keys, exponential velocity integration, 8-ray collision
probing and wall-slide resolution, and the per-frame animate tick).

Floating-point numbers are idealized as real numbers.  The three.js vector
operations used by the source (`add`, `sub`, `multiplyScalar`, `dot`,
`lengthSq`, `normalize`, `lerp`, `projectOnPlane`, `applyQuaternion`) are
embedded on a concrete 3-component vector type.  The scene query performed by
`raycaster.intersectObjects` (nearest ray intersection against the registered
colliders) is an external collaborator per the design, and is modelled as an
oracle `Vec3 → Vec3 → Option (ℝ × Vec3)` returning the nearest hit distance
and intersection point (mesh intersections always carry a face, so the
guard `intersects[0].face` in the source always passes and is not modelled
separately).
-/

namespace Museum

/-- A 3-component real vector, modelling `THREE.Vector3`. -/
@[ext] structure Vec3 where
  x : ℝ
  y : ℝ
  z : ℝ

namespace Vec3

instance : Zero Vec3 := ⟨⟨0, 0, 0⟩⟩

instance : Add Vec3 := ⟨fun v w => ⟨v.x + w.x, v.y + w.y, v.z + w.z⟩⟩

instance : Sub Vec3 := ⟨fun v w => ⟨v.x - w.x, v.y - w.y, v.z - w.z⟩⟩

instance : Neg Vec3 := ⟨fun v => ⟨-v.x, -v.y, -v.z⟩⟩

instance : SMul ℝ Vec3 := ⟨fun a v => ⟨a * v.x, a * v.y, a * v.z⟩⟩

/-- Embedding of `THREE.Vector3.dot`. -/
def dot (v w : Vec3) : ℝ := v.x * w.x + v.y * w.y + v.z * w.z

/-- Embedding of `THREE.Vector3.lengthSq`. -/
def lengthSq (v : Vec3) : ℝ := v.x * v.x + v.y * v.y + v.z * v.z

/-- Embedding of `THREE.Vector3.length`. -/
noncomputable def length (v : Vec3) : ℝ := Real.sqrt v.lengthSq

/-- Embedding of `THREE.Vector3.normalize`: `divideScalar(length() || 1)`, so the zero
vector normalizes to itself. -/
noncomputable def normalize (v : Vec3) : Vec3 :=
  if v.lengthSq = 0 then v else (Real.sqrt v.lengthSq)⁻¹ • v

/-- Embedding of `THREE.Vector3.lerp`: `this += (v - this) * alpha` componentwise. -/
def lerp (v target : Vec3) (alpha : ℝ) : Vec3 := v + alpha • (target - v)

/-- Embedding of `THREE.Vector3.projectOnVector`: zero when the target has zero length
(the source guard is mirrored by division-by-zero yielding zero). -/
noncomputable def projectOnVector (v n : Vec3) : Vec3 := (n.dot v / n.lengthSq) • n

/-- Embedding of `THREE.Vector3.projectOnPlane`. -/
noncomputable def projectOnPlane (v n : Vec3) : Vec3 := v - v.projectOnVector n

end Vec3

/-- Camera orientation, modelling `THREE.Quaternion`. -/
structure Quaternion where
  x : ℝ
  y : ℝ
  z : ℝ
  w : ℝ

/-- Embedding of `THREE.Vector3.applyQuaternion`, as implemented in three.js:
`t = 2 (q.xyz × v)`, `result = v + q.w t + q.xyz × t`. -/
def Vec3.applyQuaternion (v : Vec3) (q : Quaternion) : Vec3 :=
  let tx := 2 * (q.y * v.z - q.z * v.y)
  let ty := 2 * (q.z * v.x - q.x * v.z)
  let tz := 2 * (q.x * v.y - q.y * v.x)
  ⟨v.x + q.w * tx + q.y * tz - q.z * ty,
   v.y + q.w * ty + q.z * tx - q.x * tz,
   v.z + q.w * tz + q.x * ty - q.y * tx⟩

/-- Source lines `forward.y = 0` / `right.y = 0`: zero the vertical component. -/
def Vec3.setYZero (v : Vec3) : Vec3 := ⟨v.x, 0, v.z⟩

/-- The function `updateTargetVelocity` from the source.  The held-key set is the raw
`event.code` set (`activeKeys`); `isInteracting` is the suspension flag
captured by the effect.

The source mutates the shared `forward` / `right` vectors in place:
`targetVelocity.add(forward.multiplyScalar(moveSpeed))` rescales `forward`
itself, so a later `targetVelocity.sub(forward.multiplyScalar(moveSpeed))`
subtracts the twice-scaled vector.  The pairs below carry
(accumulated target velocity, current value of the mutated vector).
-/
noncomputable def updateTargetVelocity (isInteracting : Bool) (q : Quaternion)
    (activeKeys : Finset String) (moveSpeed : ℝ) : Vec3 :=
  if isInteracting then 0 else
  let forward := ((Vec3.mk 0 0 (-1)).applyQuaternion q).setYZero.normalize
  let right := ((Vec3.mk (-1) 0 0).applyQuaternion q).setYZero.normalize
  let p1 : Vec3 × Vec3 :=
    if "KeyW" ∈ activeKeys then (0 + moveSpeed • forward, moveSpeed • forward)
    else (0, forward)
  let p2 : Vec3 × Vec3 :=
    if "KeyS" ∈ activeKeys then (p1.1 - moveSpeed • p1.2, moveSpeed • p1.2)
    else p1
  let p3 : Vec3 × Vec3 :=
    if "KeyA" ∈ activeKeys then (p2.1 + moveSpeed • right, moveSpeed • right)
    else (p2.1, right)
  let tv : Vec3 :=
    if "KeyD" ∈ activeKeys then p3.1 - moveSpeed • p3.2 else p3.1
  if moveSpeed * moveSpeed < tv.lengthSq then moveSpeed • tv.normalize else tv

/-- The velocity update of `animate` (lines 162–168 of the source):
blend toward a non-zero target with factor `1 - exp(-acceleration·dt)`,
otherwise decay by `exp(-deceleration·dt)`.
-/
noncomputable def integrate (v targetVelocity : Vec3)
    (deltaTime acceleration deceleration : ℝ) : Vec3 :=
  if 0 < targetVelocity.lengthSq then
    v.lerp targetVelocity (1 - Real.exp (-(acceleration * deltaTime)))
  else
    Real.exp (-(deceleration * deltaTime)) • v

/-- Scene query capability: nearest intersection of the ray from an origin in
a direction against the registered colliders, as `(distance, point)`; `none`
when the ray hits nothing (`raycaster.intersectObjects` collaborator). -/
def Oracle : Type := Vec3 → Vec3 → Option (ℝ × Vec3)

/-- The fixed bundle of 8 horizontal probe directions from the source. -/
noncomputable def rays : List Vec3 :=
  [⟨1, 0, 0⟩, ⟨-1, 0, 0⟩, ⟨0, 0, 1⟩, ⟨0, 0, -1⟩,
   Vec3.normalize ⟨1, 0, 1⟩, Vec3.normalize ⟨-1, 0, 1⟩,
   Vec3.normalize ⟨1, 0, -1⟩, Vec3.normalize ⟨-1, 0, -1⟩]

/-- The `for (const direction of rays)` loop of `checkCollision`, carrying the
two mutable variables (`hasCollision`, accumulated `collisionNormal`).
A ray contributes when the nearest intersection lies strictly within
`collisionDistance`; its push direction is the normalized vector from the
intersection point toward the proposed position.
-/
noncomputable def probeLoop (oracle : Oracle) (newPosition : Vec3)
    (collisionDistance : ℝ) : List Vec3 → Bool → Vec3 → Bool × Vec3
  | [], hasCollision, acc => (hasCollision, acc)
  | d :: rest, hasCollision, acc =>
    match oracle newPosition d with
    | some hit =>
      if hit.1 < collisionDistance then
        probeLoop oracle newPosition collisionDistance rest true
          (acc + (newPosition - hit.2).normalize)
      else probeLoop oracle newPosition collisionDistance rest hasCollision acc
    | none => probeLoop oracle newPosition collisionDistance rest hasCollision acc

/-- The probe part of `checkCollision` (rays cast and, when a collision
occurred, the final normalization of the accumulated push vector). -/
noncomputable def probe (oracle : Oracle) (newPosition : Vec3)
    (collisionDistance : ℝ) : Bool × Vec3 :=
  let r := probeLoop oracle newPosition collisionDistance rays false 0
  (r.1, if r.1 then r.2.normalize else r.2)

/-- Velocity resolution against the aggregate normal (lines 97–107):
if the velocity points into the obstacle, remove the into-obstacle
component, project onto the plane orthogonal to the normal, and damp by
`wallSlideForce`. -/
noncomputable def resolveVelocity (wallSlideForce : ℝ) (v normal : Vec3) : Vec3 :=
  if v.dot normal < 0 then
    wallSlideForce • ((v - (v.dot normal) • normal).projectOnPlane normal)
  else v

/-- Result of `checkCollision`: the returned flag, the velocity after
resolution, the unit aggregate normal, and the (push-adjusted) proposed
position. -/
structure CollisionResult where
  collided : Bool
  velocity : Vec3
  normal : Vec3
  position : Vec3

/-- The function `checkCollision` from the source: probe, then (on collision) resolve the
velocity and push the proposed position out along the aggregate normal by
`collisionDistance - 0.05`.  The `normal` field is the unit aggregate normal
computed at line 95 and used by the resolution (the source later rescales
the same scratch ref in place at line 110, which the next probe resets). -/
noncomputable def checkCollision (oracle : Oracle)
    (collisionDistance wallSlideForce : ℝ) (v newPosition : Vec3) :
    CollisionResult :=
  let r := probe oracle newPosition collisionDistance
  if r.1 then
    { collided := true
      velocity := resolveVelocity wallSlideForce v r.2
      normal := r.2
      position := newPosition + (collisionDistance - 0.05) • r.2 }
  else
    { collided := false, velocity := v, normal := r.2, position := newPosition }

/-- Post-state of one `animate` tick: the velocity ref and the camera
position. -/
structure StepResult where
  velocity : Vec3
  position : Vec3

/-- One tick of the `animate` loop (lines 157–178), taking the raw frame delta
in seconds (before the `Math.min(·, 0.1)` clamp).  The camera position is
updated only when the integrated velocity is above the epsilon threshold,
locomotion is not suspended, and `checkCollision` returned `false`; on a
collision tick the (mutated) proposed position is discarded and the camera
stays where it was, while the resolved velocity is kept.
-/
noncomputable def animateStep (oracle : Oracle) (isInteracting : Bool)
    (acceleration deceleration collisionDistance wallSlideForce : ℝ)
    (dtRaw : ℝ) (pos v targetVelocity : Vec3) : StepResult :=
  let deltaTime := min dtRaw 0.1
  let v1 := integrate v targetVelocity deltaTime acceleration deceleration
  if 0.0001 < v1.lengthSq ∧ isInteracting = false then
    let newPosition := pos + deltaTime • v1
    let r := checkCollision oracle collisionDistance wallSlideForce v1 newPosition
    if r.collided then { velocity := r.velocity, position := pos }
    else { velocity := r.velocity, position := r.position }
  else { velocity := v1, position := pos }

/-- Input-tracker state: the held `event.code` set and the suspension flag. -/
structure InputState where
  held : Finset String
  suspended : Bool

/-- Input events: key down / key up (handled by `handleKeyDown` /
`handleKeyUp`) and a change of the suspension flag (the `isInteracting`
prop driving the effect). -/
inductive InputEvent where
  | keyDown (code : String)
  | keyUp (code : String)
  | setSuspended (b : Bool)

/-- Event handling from the source: `handleKeyDown` records a key only when
not suspended; `handleKeyUp` always removes the key; a suspension change
only toggles the flag (the effect cleanup does not touch `activeKeys`). -/
def applyEvent (s : InputState) : InputEvent → InputState
  | .keyDown c => if s.suspended then s else { s with held := insert c s.held }
  | .keyUp c => { s with held := s.held.erase c }
  | .setSuspended b => { s with suspended := b }

/-- Process a sequence of input events. -/
def applyEvents (s : InputState) (evs : List InputEvent) : InputState :=
  evs.foldl applyEvent s

/-- The trace condition that every `keyDown k` in the event list is received
while the tracker is suspended. -/
def downsSuspended : InputState → List InputEvent → String → Prop
  | _, [], _ => True
  | s, e :: es, k =>
    (e = InputEvent.keyDown k → s.suspended = true) ∧
      downsSuspended (applyEvent s e) es k

/-- Spec-side predicate (4.4): the ray direction `d` hits some collider
within `collisionDistance` from `newPosition`. -/
noncomputable def rayHits (oracle : Oracle) (newPosition : Vec3)
    (collisionDistance : ℝ) (d : Vec3) : Bool :=
  match oracle newPosition d with
  | some hit => decide (hit.1 < collisionDistance)
  | none => false

/-- Spec-side push direction of a ray (4.4): the normalized vector from the
intersection point toward the proposed position. -/
noncomputable def pushOf (oracle : Oracle) (newPosition : Vec3) (d : Vec3) : Vec3 :=
  match oracle newPosition d with
  | some hit => (newPosition - hit.2).normalize
  | none => 0

/-- Sum of a list of vectors. -/
def vsum (l : List Vec3) : Vec3 := l.foldr (fun v acc => v + acc) 0

/-- A degenerate scene query used as a concrete probe input: the nearest hit of every ray is at distance 0.3 with the intersection point at the ray
origin. -/
noncomputable def constHit : Oracle := fun o _ => some (0.3, o)

/-! ## Component and algebra lemmas for the vector model -/

namespace Vec3

@[simp] theorem zero_x : (0 : Vec3).x = 0 := rfl

@[simp] theorem zero_y : (0 : Vec3).y = 0 := rfl

@[simp] theorem zero_z : (0 : Vec3).z = 0 := rfl

@[simp] theorem add_x (v w : Vec3) : (v + w).x = v.x + w.x := rfl

@[simp] theorem add_y (v w : Vec3) : (v + w).y = v.y + w.y := rfl

@[simp] theorem add_z (v w : Vec3) : (v + w).z = v.z + w.z := rfl

@[simp] theorem sub_x (v w : Vec3) : (v - w).x = v.x - w.x := rfl

@[simp] theorem sub_y (v w : Vec3) : (v - w).y = v.y - w.y := rfl

@[simp] theorem sub_z (v w : Vec3) : (v - w).z = v.z - w.z := rfl

@[simp] theorem neg_x (v : Vec3) : (-v).x = -v.x := rfl

@[simp] theorem neg_y (v : Vec3) : (-v).y = -v.y := rfl

@[simp] theorem neg_z (v : Vec3) : (-v).z = -v.z := rfl

@[simp] theorem smul_x (a : ℝ) (v : Vec3) : (a • v).x = a * v.x := rfl

@[simp] theorem smul_y (a : ℝ) (v : Vec3) : (a • v).y = a * v.y := rfl

@[simp] theorem smul_z (a : ℝ) (v : Vec3) : (a • v).z = a * v.z := rfl

@[simp] theorem mk_x (a b c : ℝ) : (Vec3.mk a b c).x = a := rfl

@[simp] theorem mk_y (a b c : ℝ) : (Vec3.mk a b c).y = b := rfl

@[simp] theorem mk_z (a b c : ℝ) : (Vec3.mk a b c).z = c := rfl

theorem add_assoc (u v w : Vec3) : u + v + w = u + (v + w) := by
  ext <;> simp <;> ring

theorem add_zero (v : Vec3) : v + 0 = v := by
  ext <;> simp

theorem zero_add (v : Vec3) : 0 + v = v := by
  ext <;> simp

theorem sub_self (v : Vec3) : v - v = 0 := by
  ext <;> simp

@[simp] theorem normalize_zero : normalize 0 = 0 := by
  simp [normalize, lengthSq]

theorem lengthSq_nonneg (v : Vec3) : 0 ≤ v.lengthSq := by
  simp only [lengthSq]
  nlinarith [sq_nonneg v.x, sq_nonneg v.y, sq_nonneg v.z]

theorem length_sq_eq (v : Vec3) : v.length ^ 2 = v.lengthSq := by
  simpa [length] using Real.sq_sqrt v.lengthSq_nonneg

theorem length_nonneg (v : Vec3) : 0 ≤ v.length := Real.sqrt_nonneg _

theorem length_le_of_lengthSq_le {v : Vec3} {m : ℝ} (hm : 0 ≤ m)
    (h : v.lengthSq ≤ m ^ 2) : v.length ≤ m := by
  have := Real.sqrt_le_sqrt h
  simpa [length, Real.sqrt_sq hm] using this

theorem lengthSq_le_of_length_le {v : Vec3} {m : ℝ} (h : v.length ≤ m) :
    v.lengthSq ≤ m ^ 2 := by
  have h0 : 0 ≤ v.length := v.length_nonneg
  calc v.lengthSq = v.length ^ 2 := (v.length_sq_eq).symm
    _ ≤ m ^ 2 := by nlinarith

theorem lengthSq_smul (a : ℝ) (v : Vec3) : (a • v).lengthSq = a ^ 2 * v.lengthSq := by
  simp only [lengthSq, smul_x, smul_y, smul_z]
  ring

theorem lengthSq_normalize {v : Vec3} (h : v.lengthSq ≠ 0) :
    v.normalize.lengthSq = 1 := by
  have hpos : 0 < v.lengthSq := lt_of_le_of_ne v.lengthSq_nonneg (Ne.symm h)
  have hsq : Real.sqrt v.lengthSq ^ 2 = v.lengthSq := Real.sq_sqrt (le_of_lt hpos)
  rw [normalize, if_neg h, lengthSq_smul, inv_pow, hsq, inv_mul_cancel₀ h]

theorem length_normalize {v : Vec3} (h : v.lengthSq ≠ 0) :
    v.normalize.length = 1 := by
  simp [length, lengthSq_normalize h]

theorem normalize_y_zero {v : Vec3} (h : v.y = 0) : v.normalize.y = 0 := by
  by_cases h0 : v.lengthSq = 0
  · simp [normalize, h0, h]
  · simp [normalize, h0, h]

end Vec3

/-! ## Vector algebra lemmas -/

theorem Vec3.length_zero : (0 : Vec3).length = 0 := by
  simp [Vec3.length, Vec3.lengthSq]

theorem Vec3.dot_comm (v w : Vec3) : v.dot w = w.dot v := by
  simp only [Vec3.dot]
  ring

theorem Vec3.cauchy (v w : Vec3) : v.dot w ^ 2 ≤ v.lengthSq * w.lengthSq := by
  simp only [Vec3.dot, Vec3.lengthSq]
  nlinarith [sq_nonneg (v.x * w.y - v.y * w.x), sq_nonneg (v.x * w.z - v.z * w.x),
    sq_nonneg (v.y * w.z - v.z * w.y)]

theorem Vec3.dot_le_of_lengthSq_le {v w : Vec3} {m : ℝ} (hm : 0 ≤ m)
    (hv : v.lengthSq ≤ m ^ 2) (hw : w.lengthSq ≤ m ^ 2) : v.dot w ≤ m ^ 2 := by
  have h1 : v.lengthSq * w.lengthSq ≤ m ^ 2 * m ^ 2 :=
    mul_le_mul hv hw (Vec3.lengthSq_nonneg w) (by positivity)
  nlinarith [Vec3.cauchy v w, sq_nonneg (v.dot w - m ^ 2), sq_nonneg (v.dot w + m ^ 2)]

theorem Vec3.lengthSq_lerp_le {v t : Vec3} {m f : ℝ}
    (hv : v.lengthSq ≤ m ^ 2) (ht : t.lengthSq ≤ m ^ 2) (hm : 0 ≤ m)
    (hf0 : 0 ≤ f) (hf1 : f ≤ 1) : (v.lerp t f).lengthSq ≤ m ^ 2 := by
  have hdot : v.dot t ≤ m ^ 2 := Vec3.dot_le_of_lengthSq_le hm hv ht
  have hexp : (v.lerp t f).lengthSq =
      (1 - f) ^ 2 * v.lengthSq + 2 * f * (1 - f) * v.dot t + f ^ 2 * t.lengthSq := by
    simp only [Vec3.lerp, Vec3.lengthSq, Vec3.dot, Vec3.add_x, Vec3.add_y, Vec3.add_z,
      Vec3.smul_x, Vec3.smul_y, Vec3.smul_z, Vec3.sub_x, Vec3.sub_y, Vec3.sub_z]
    ring
  rw [hexp]
  nlinarith [mul_nonneg (mul_nonneg (by linarith : (0:ℝ) ≤ 2 * f)
      (by linarith : (0:ℝ) ≤ 1 - f)) (by linarith : (0:ℝ) ≤ m ^ 2 - v.dot t),
    mul_nonneg (sq_nonneg (1 - f)) (by linarith : (0:ℝ) ≤ m ^ 2 - v.lengthSq),
    mul_nonneg (sq_nonneg f) (by linarith : (0:ℝ) ≤ m ^ 2 - t.lengthSq)]

theorem Vec3.tangent_dot {v n : Vec3} (hn : n.lengthSq = 1) :
    (v - v.dot n • n).dot n = 0 := by
  have hS : n.x * n.x + n.y * n.y + n.z * n.z = 1 := by simpa [Vec3.lengthSq] using hn
  simp only [Vec3.dot, Vec3.sub_x, Vec3.sub_y, Vec3.sub_z,
    Vec3.smul_x, Vec3.smul_y, Vec3.smul_z]
  linear_combination (-(v.x * n.x + v.y * n.y + v.z * n.z)) * hS

theorem Vec3.projectOnPlane_tangent {v n : Vec3} (hn : n.lengthSq = 1) :
    (v - v.dot n • n).projectOnPlane n = v - v.dot n • n := by
  have h0 : n.dot (v - v.dot n • n) = 0 := by
    rw [Vec3.dot_comm]
    exact Vec3.tangent_dot hn
  rw [Vec3.projectOnPlane, Vec3.projectOnVector, h0]
  ext <;> simp

theorem Vec3.lengthSq_tangent {v n : Vec3} (hn : n.lengthSq = 1) :
    (v - v.dot n • n).lengthSq = v.lengthSq - v.dot n ^ 2 := by
  have hS : n.x * n.x + n.y * n.y + n.z * n.z = 1 := by simpa [Vec3.lengthSq] using hn
  simp only [Vec3.lengthSq, Vec3.dot, Vec3.sub_x, Vec3.sub_y, Vec3.sub_z,
    Vec3.smul_x, Vec3.smul_y, Vec3.smul_z]
  linear_combination (v.x * n.x + v.y * n.y + v.z * n.z) ^ 2 * hS

/-! ## General lemmas about the integrator -/

theorem integrate_zero_dt (v targetVelocity : Vec3) (acceleration deceleration : ℝ) :
    integrate v targetVelocity 0 acceleration deceleration = v := by
  by_cases h : 0 < targetVelocity.lengthSq
  · simp only [integrate, if_pos h, Vec3.lerp]
    ext <;> simp
  · simp only [integrate, if_neg h]
    ext <;> simp

theorem integrate_integrate (v targetVelocity : Vec3) (dt1 dt2 a dec : ℝ) :
    integrate (integrate v targetVelocity dt1 a dec) targetVelocity dt2 a dec =
      integrate v targetVelocity (dt1 + dt2) a dec := by
  have hexp : ∀ c : ℝ,
      Real.exp (-(c * (dt1 + dt2))) = Real.exp (-(c * dt1)) * Real.exp (-(c * dt2)) := by
    intro c
    rw [← Real.exp_add]
    congr 1
    ring
  by_cases h : 0 < targetVelocity.lengthSq
  · simp only [integrate, if_pos h, Vec3.lerp]
    ext <;> simp [hexp a] <;> ring
  · simp only [integrate, if_neg h]
    ext <;> simp [hexp dec] <;> ring

theorem integrate_iterate (targetVelocity : Vec3) (dt a dec : ℝ) :
    ∀ (n : ℕ) (v : Vec3),
      (fun w => integrate w targetVelocity dt a dec)^[n] v =
        integrate v targetVelocity ((n : ℝ) * dt) a dec := by
  intro n
  induction n with
  | zero =>
    intro v
    simpa using (integrate_zero_dt v targetVelocity a dec).symm
  | succ m ih =>
    intro v
    rw [Function.iterate_succ_apply', ih, integrate_integrate]
    congr 1
    push_cast
    ring

/-- Claim C6: one integration step with `dt = 0.1` yields exactly the same
velocity as ten successive steps with `dt = 0.01`, for every starting
velocity and every target velocity (both the exponential blend toward a
non-zero target and the zero-target exponential decay): the exponential
integration is frame-rate independent.
-/
theorem C6_framerate_independent (v targetVelocity : Vec3)
    (acceleration deceleration : ℝ) :
    (fun w => integrate w targetVelocity 0.01 acceleration deceleration)^[10] v =
      integrate v targetVelocity 0.1 acceleration deceleration := by
  rw [integrate_iterate targetVelocity 0.01 acceleration deceleration 10 v]
  norm_num

/-! ## Suspension and the input tracker -/

/-- Claim C2 counterexample: transitioning to the suspended state does not
clear the held-key set — a state holding `KeyW` still holds it after the
suspension event, refuting "clears the held set entirely".
-/
theorem C2_suspend_does_not_clear_held :
    (applyEvent ⟨{"KeyW"}, false⟩ (InputEvent.setSuspended true)).held ≠
      (∅ : Finset String) := by
  simp [applyEvent]

/-- Claim C2 (amended): transitioning to suspended leaves the held-key set
unchanged; while suspended the next target-velocity computation returns
zero regardless of held keys; and the current velocity is not
discontinuously zeroed — with a zero target it decays by the factor
`exp(-deceleration·dt)`.
-/
theorem C2_suspend_amended (s : InputState) (q : Quaternion) (keys : Finset String)
    (moveSpeed acceleration deceleration deltaTime : ℝ) (v : Vec3) :
    (applyEvent s (InputEvent.setSuspended true)).suspended = true ∧
    (applyEvent s (InputEvent.setSuspended true)).held = s.held ∧
    updateTargetVelocity true q keys moveSpeed = 0 ∧
    integrate v 0 deltaTime acceleration deceleration =
      Real.exp (-(deceleration * deltaTime)) • v := by
  refine ⟨rfl, rfl, ?_, ?_⟩
  · simp [updateTargetVelocity]
  · rw [integrate, if_neg]
    simp [Vec3.lengthSq]

/-! ## The dt clamp (C7) -/

theorem probeLoop_none (p : Vec3) (cd : ℝ) :
    ∀ (l : List Vec3) (has : Bool) (acc : Vec3),
      probeLoop (fun _ _ => none) p cd l has acc = (has, acc) := by
  intro l
  induction l with
  | nil => intro has acc; rfl
  | cons d rest ih => intro has acc; simpa [probeLoop] using ih has acc

theorem probe_none (p : Vec3) (cd : ℝ) :
    probe (fun _ _ => none) p cd = (false, 0) := by
  simp [probe, probeLoop_none]

/-- Claim C7 counterexample: a frame with raw delta `-0.1` (clock anomaly) is
not clamped to zero contribution: with no keys held, deceleration 8 and
current velocity `(0,0,1)`, the tick multiplies the velocity by
`exp(0.8) > 1` instead of leaving it unchanged.
-/
theorem C7_negative_dt_changes_velocity :
    (animateStep (fun _ _ => none) false 15 8 0.5 0.98 (-0.1)
        ⟨0, 0, 0⟩ ⟨0, 0, 1⟩ 0).velocity ≠ ⟨0, 0, 1⟩ := by
  have hmin : min (-0.1 : ℝ) 0.1 = -0.1 := by norm_num
  have hint : integrate ⟨0, 0, 1⟩ 0 (min (-0.1 : ℝ) 0.1) 15 8 =
      ⟨0, 0, Real.exp 0.8⟩ := by
    rw [integrate, if_neg (by simp [Vec3.lengthSq])]
    rw [hmin]
    ext <;> simp <;> norm_num
  have hvel : (animateStep (fun _ _ => none) false 15 8 0.5 0.98 (-0.1)
      ⟨0, 0, 0⟩ ⟨0, 0, 1⟩ 0).velocity = ⟨0, 0, Real.exp 0.8⟩ := by
    simp only [animateStep, hint, checkCollision, probe_none]
    split <;> rfl
  rw [hvel]
  intro h
  have hz : Real.exp 0.8 = 1 := congrArg Vec3.z h
  rw [Real.exp_eq_one_iff] at hz
  norm_num at hz

/-- Claim C7 (amended): only an upper clamp (`min dt 0.1`) exists.  A frame
whose raw delta is exactly zero does contribute nothing: the integration
leaves the velocity unchanged and the committed viewpoint position equals
the previous position.  (A negative raw delta is not clamped, see the
counterexample.)
-/
theorem C7_zero_dt_no_movement (oracle : Oracle) (isInteracting : Bool)
    (acceleration deceleration collisionDistance wallSlideForce : ℝ)
    (pos v targetVelocity : Vec3) :
    integrate v targetVelocity (min 0 0.1) acceleration deceleration = v ∧
    (animateStep oracle isInteracting acceleration deceleration collisionDistance
        wallSlideForce 0 pos v targetVelocity).position = pos := by
  have hmin : min (0 : ℝ) 0.1 = 0 := by norm_num
  have hint : integrate v targetVelocity (min (0 : ℝ) 0.1) acceleration deceleration = v := by
    rw [hmin, integrate_zero_dt]
  refine ⟨hint, ?_⟩
  have hpos : pos + (min (0 : ℝ) 0.1) • v = pos := by
    rw [hmin]
    ext <;> simp
  simp only [animateStep, hint, hpos]
  by_cases hc : (0.0001 : ℝ) < v.lengthSq ∧ isInteracting = false
  · simp only [if_pos hc]
    by_cases hp : (probe oracle pos collisionDistance).1
    · simp [checkCollision, hp]
    · simp [checkCollision, hp]
  · simp only [if_neg hc]

/-! ## Key events under suspension (C8) -/

theorem not_held_of_downsSuspended {k : String} :
    ∀ (evs : List InputEvent) (s : InputState),
      k ∉ s.held → downsSuspended s evs k → k ∉ (applyEvents s evs).held := by
  intro evs
  induction evs with
  | nil => intro s h _; exact h
  | cons e rest ih =>
    intro s h hds
    obtain ⟨h1, h2⟩ := hds
    have hstep : applyEvents s (e :: rest) = applyEvents (applyEvent s e) rest := rfl
    rw [hstep]
    refine ih (applyEvent s e) ?_ h2
    cases e with
    | keyDown c =>
      by_cases hs : s.suspended = true
      · simpa [applyEvent, hs] using h
      · have hck : ¬(k = c) := by
          intro hek
          exact hs (h1 (by rw [hek]))
        simp only [applyEvent, if_neg hs]
        simp [Finset.mem_insert, hck, h]
    | keyUp c =>
      simp only [applyEvent]
      intro hmem
      exact h (Finset.mem_of_mem_erase hmem)
    | setSuspended b => simpa [applyEvent] using h


/-- Claim C8: across input events, a key-down received while suspended adds
nothing to the held set; a key-up always removes its key, even while
suspended; and after a key-up, the key stays un-held through any further
event sequence in which every key-down for that key arrives while
suspended — so no key released during suspension remains held after
resuming.
-/
theorem C8_suspension_key_invariant (s : InputState) (k : String) :
    (s.suspended = true → (applyEvent s (InputEvent.keyDown k)).held = s.held) ∧
    k ∉ (applyEvent s (InputEvent.keyUp k)).held ∧
    ∀ evs : List InputEvent,
      downsSuspended (applyEvent s (InputEvent.keyUp k)) evs k →
        k ∉ (applyEvents (applyEvent s (InputEvent.keyUp k)) evs).held := by
  refine ⟨?_, ?_, ?_⟩
  · intro hs
    simp [applyEvent, hs]
  · simp [applyEvent]
  · intro evs hds
    exact not_held_of_downsSuspended evs _ (by simp [applyEvent]) hds

/-- Witness for C8 at a concrete state: suspended with `KeyW` held, a
key-down is ignored, the key-up removes the key, and it stays un-held
after resuming. -/
theorem C8_suspension_key_invariant_witness :
    ((applyEvent ⟨{"KeyW"}, true⟩ (InputEvent.keyDown "KeyW")).held = {"KeyW"}) ∧
    ("KeyW" ∉ (applyEvent ⟨{"KeyW"}, true⟩ (InputEvent.keyUp "KeyW")).held) ∧
    "KeyW" ∉ (applyEvents (applyEvent ⟨{"KeyW"}, true⟩ (InputEvent.keyUp "KeyW"))
        [InputEvent.setSuspended false]).held :=
  ⟨(C8_suspension_key_invariant ⟨{"KeyW"}, true⟩ "KeyW").1 rfl,
   (C8_suspension_key_invariant ⟨{"KeyW"}, true⟩ "KeyW").2.1,
   (C8_suspension_key_invariant ⟨{"KeyW"}, true⟩ "KeyW").2.2
     [InputEvent.setSuspended false] (by simp [downsSuspended])⟩

/-! ## Collision resolution (C4) and the speed invariant (C5) -/

theorem resolveVelocity_eq_of_into {v n : Vec3} (ws : ℝ)
    (hn : n.lengthSq = 1) (hd : v.dot n < 0) :
    resolveVelocity ws v n = ws • (v - v.dot n • n) := by
  rw [resolveVelocity, if_pos hd, Vec3.projectOnPlane_tangent hn]

/-- Claim C4: when the velocity points into the obstacle (`v·n < 0`, `n` the
unit aggregate normal), the resolution in the source — remove the into-obstacle
component, project onto the plane orthogonal to `n`, damp by the wall-slide
factor — yields a velocity with non-negative dot product against `n`
(no further penetration) whose magnitude does not exceed the original
tangential magnitude.
-/
theorem C4_resolution_no_penetration (v n : Vec3) (ws : ℝ)
    (hn : n.lengthSq = 1) (hd : v.dot n < 0) (h0 : 0 ≤ ws) (h1 : ws ≤ 1) :
    0 ≤ (resolveVelocity ws v n).dot n ∧
    (resolveVelocity ws v n).length ≤ (v - v.dot n • n).length := by
  rw [resolveVelocity_eq_of_into ws hn hd]
  constructor
  · have htan : (v - v.dot n • n).dot n = 0 := Vec3.tangent_dot hn
    have hsmul : (ws • (v - v.dot n • n)).dot n = ws * (v - v.dot n • n).dot n := by
      simp only [Vec3.dot, Vec3.smul_x, Vec3.smul_y, Vec3.smul_z]
      ring
    rw [hsmul, htan, mul_zero]
  · have hkey : (ws • (v - v.dot n • n)).lengthSq ≤ (v - v.dot n • n).lengthSq := by
      rw [Vec3.lengthSq_smul]
      nlinarith [mul_nonneg (mul_nonneg (by linarith : (0:ℝ) ≤ 1 - ws)
        (by linarith : (0:ℝ) ≤ 1 + ws)) (Vec3.lengthSq_nonneg (v - v.dot n • n))]
    calc (ws • (v - v.dot n • n)).length
        = Real.sqrt (ws • (v - v.dot n • n)).lengthSq := rfl
      _ ≤ Real.sqrt (v - v.dot n • n).lengthSq := Real.sqrt_le_sqrt hkey
      _ = (v - v.dot n • n).length := rfl

/-- Witness for C4 at `v = (1,0,-1)`, `n = (0,0,1)`, wall-slide 0.98. -/
theorem C4_resolution_no_penetration_witness :
    0 ≤ (resolveVelocity 0.98 ⟨1, 0, -1⟩ ⟨0, 0, 1⟩).dot ⟨0, 0, 1⟩ ∧
    (resolveVelocity 0.98 ⟨1, 0, -1⟩ ⟨0, 0, 1⟩).length ≤
      ((⟨1, 0, -1⟩ : Vec3) - (Vec3.mk 1 0 (-1)).dot ⟨0, 0, 1⟩ • ⟨0, 0, 1⟩).length :=
  C4_resolution_no_penetration ⟨1, 0, -1⟩ ⟨0, 0, 1⟩ 0.98
    (by norm_num [Vec3.lengthSq]) (by norm_num [Vec3.dot])
    (by norm_num) (by norm_num)

theorem lengthSq_resolveVelocity_le (v n : Vec3) (ws : ℝ)
    (hn : n.lengthSq = 1 ∨ n = 0) (h0 : 0 ≤ ws) (h1 : ws ≤ 1) :
    (resolveVelocity ws v n).lengthSq ≤ v.lengthSq := by
  rcases hn with hn | hn
  · by_cases hd : v.dot n < 0
    · rw [resolveVelocity_eq_of_into ws hn hd, Vec3.lengthSq_smul,
        Vec3.lengthSq_tangent hn]
      have h2 : 0 ≤ v.lengthSq - v.dot n ^ 2 := by
        have h3 := Vec3.lengthSq_nonneg (v - v.dot n • n)
        rw [Vec3.lengthSq_tangent hn] at h3
        exact h3
      nlinarith [sq_nonneg (v.dot n),
        mul_nonneg (mul_nonneg (by linarith : (0:ℝ) ≤ 1 - ws)
          (by linarith : (0:ℝ) ≤ 1 + ws)) h2]
    · rw [resolveVelocity, if_neg hd]
  · subst hn
    have hd : v.dot 0 = 0 := by simp [Vec3.dot]
    rw [resolveVelocity, if_neg (by rw [hd]; exact lt_irrefl 0)]

theorem updateTargetVelocity_clamped {tv : Vec3} {ms : ℝ} (hms : 0 ≤ ms) :
    (if ms * ms < tv.lengthSq then ms • tv.normalize else tv).length ≤ ms := by
  split
  case isTrue h =>
    have hne : tv.lengthSq ≠ 0 := by nlinarith [sq_nonneg ms]
    apply Vec3.length_le_of_lengthSq_le hms
    rw [Vec3.lengthSq_smul, Vec3.lengthSq_normalize hne]
    nlinarith
  case isFalse h =>
    apply Vec3.length_le_of_lengthSq_le hms
    nlinarith [not_lt.mp h]

theorem updateTargetVelocity_le (isInteracting : Bool) (q : Quaternion)
    (keys : Finset String) {ms : ℝ} (hms : 0 ≤ ms) :
    (updateTargetVelocity isInteracting q keys ms).length ≤ ms := by
  cases isInteracting with
  | true =>
    rw [updateTargetVelocity, if_pos rfl, Vec3.length_zero]
    exact hms
  | false =>
    rw [updateTargetVelocity, if_neg (by simp)]
    exact updateTargetVelocity_clamped hms

theorem integrate_le {v t : Vec3} {ms a dec dt : ℝ} (hms : 0 ≤ ms)
    (ha : 0 ≤ a) (hdec : 0 ≤ dec) (hdt : 0 ≤ dt)
    (hv : v.length ≤ ms) (ht : t.length ≤ ms) :
    (integrate v t dt a dec).length ≤ ms := by
  have hv2 := Vec3.lengthSq_le_of_length_le hv
  have ht2 := Vec3.lengthSq_le_of_length_le ht
  rw [integrate]
  split
  · apply Vec3.length_le_of_lengthSq_le hms
    refine Vec3.lengthSq_lerp_le hv2 ht2 hms ?_ ?_
    · have he : Real.exp (-(a * dt)) ≤ 1 := Real.exp_le_one_iff.mpr (by nlinarith)
      linarith
    · have hep : 0 < Real.exp (-(a * dt)) := Real.exp_pos _
      linarith
  · apply Vec3.length_le_of_lengthSq_le hms
    rw [Vec3.lengthSq_smul]
    have he : Real.exp (-(dec * dt)) ≤ 1 := Real.exp_le_one_iff.mpr (by nlinarith)
    have hep : 0 < Real.exp (-(dec * dt)) := Real.exp_pos _
    nlinarith [mul_nonneg (mul_nonneg (by linarith : (0:ℝ) ≤ 1 - Real.exp (-(dec * dt)))
      (by linarith : (0:ℝ) ≤ 1 + Real.exp (-(dec * dt)))) (Vec3.lengthSq_nonneg v)]

/-- Claim C5: the speed invariant.  With non-negative configuration values,
`dt ≥ 0`, a wall-slide factor in `[0,1]` and an aggregate normal that is
either unit or zero, each per-frame operation keeps the magnitudes of the
target velocity and the velocity at or below `moveSpeed`: the computed
target velocity is clamped to `moveSpeed` (in particular diagonal movement
with two perpendicular keys held never exceeds it), exponential
blending/decay never overshoots, and collision resolution never increases
speed.
-/
theorem C5_speed_invariant (isInteracting : Bool) (q : Quaternion)
    (keys : Finset String) (moveSpeed acceleration deceleration deltaTime
      wallSlideForce : ℝ) (v targetVelocity n : Vec3)
    (hms : 0 ≤ moveSpeed) (ha : 0 ≤ acceleration) (hdec : 0 ≤ deceleration)
    (hdt : 0 ≤ deltaTime) (hws0 : 0 ≤ wallSlideForce) (hws1 : wallSlideForce ≤ 1)
    (hv : v.length ≤ moveSpeed) (ht : targetVelocity.length ≤ moveSpeed)
    (hn : n.lengthSq = 1 ∨ n = 0) :
    (updateTargetVelocity isInteracting q keys moveSpeed).length ≤ moveSpeed ∧
    (integrate v targetVelocity deltaTime acceleration deceleration).length ≤ moveSpeed ∧
    (resolveVelocity wallSlideForce v n).length ≤ moveSpeed := by
  refine ⟨updateTargetVelocity_le isInteracting q keys hms,
    integrate_le hms ha hdec hdt hv ht, ?_⟩
  apply Vec3.length_le_of_lengthSq_le hms
  exact le_trans (lengthSq_resolveVelocity_le v n wallSlideForce hn hws0 hws1)
    (Vec3.lengthSq_le_of_length_le hv)

/-- Witness for C5 at the default configuration and a concrete state. -/
theorem C5_speed_invariant_witness :
    (updateTargetVelocity false ⟨0, 0, 0, 1⟩ {"KeyW", "KeyA"} 2.8).length ≤ 2.8 ∧
    (integrate 0 0 0.1 15 8).length ≤ 2.8 ∧
    (resolveVelocity 0.98 0 ⟨0, 0, 1⟩).length ≤ 2.8 :=
  C5_speed_invariant false ⟨0, 0, 0, 1⟩ {"KeyW", "KeyA"} 2.8 15 8 0.1 0.98 0 0 ⟨0, 0, 1⟩
    (by norm_num) (by norm_num) (by norm_num) (by norm_num) (by norm_num) (by norm_num)
    (by rw [Vec3.length_zero]; norm_num) (by rw [Vec3.length_zero]; norm_num)
    (Or.inl (by norm_num [Vec3.lengthSq]))

/-! ## Opposing keys (C1) -/

theorem applyQuaternion_id_forward :
    ((Vec3.mk 0 0 (-1)).applyQuaternion ⟨0, 0, 0, 1⟩).setYZero.normalize =
      ⟨0, 0, -1⟩ := by
  have h1 : ((Vec3.mk 0 0 (-1)).applyQuaternion ⟨0, 0, 0, 1⟩).setYZero =
      ⟨0, 0, -1⟩ := by
    ext <;> simp [Vec3.applyQuaternion, Vec3.setYZero] <;> ring
  rw [h1, Vec3.normalize, if_neg (by norm_num [Vec3.lengthSq])]
  have h2 : (Vec3.mk 0 0 (-1)).lengthSq = 1 := by norm_num [Vec3.lengthSq]
  rw [h2, Real.sqrt_one]
  ext <;> simp

theorem applyQuaternion_id_right :
    ((Vec3.mk (-1) 0 0).applyQuaternion ⟨0, 0, 0, 1⟩).setYZero.normalize =
      ⟨-1, 0, 0⟩ := by
  have h1 : ((Vec3.mk (-1) 0 0).applyQuaternion ⟨0, 0, 0, 1⟩).setYZero =
      ⟨-1, 0, 0⟩ := by
    ext <;> simp [Vec3.applyQuaternion, Vec3.setYZero] <;> ring
  rw [h1, Vec3.normalize, if_neg (by norm_num [Vec3.lengthSq])]
  have h2 : (Vec3.mk (-1) 0 0).lengthSq = 1 := by norm_num [Vec3.lengthSq]
  rw [h2, Real.sqrt_one]
  ext <;> simp

/-- Claim C1 fails on the code: with the default `moveSpeed = 2.8`, identity
camera orientation and the opposing keys `KeyW` and `KeyS` both held, the
computed target velocity is `(0, 0, 2.8)` — full speed backward, not a
zero horizontal component.  The in-place `multiplyScalar` on the shared
`forward` vector makes the Back key subtract `moveSpeed²·forward` instead
of `moveSpeed·forward`.
-/
theorem C1_opposing_keys_not_cancelled :
    updateTargetVelocity false ⟨0, 0, 0, 1⟩ {"KeyW", "KeyS"} 2.8 = ⟨0, 0, 2.8⟩ ∧
    (updateTargetVelocity false ⟨0, 0, 0, 1⟩ {"KeyW", "KeyS"} 2.8).z ≠ 0 := by
  have hW : "KeyW" ∈ ({"KeyW", "KeyS"} : Finset String) := by decide
  have hS : "KeyS" ∈ ({"KeyW", "KeyS"} : Finset String) := by decide
  have hA : ¬"KeyA" ∈ ({"KeyW", "KeyS"} : Finset String) := by decide
  have hD : ¬"KeyD" ∈ ({"KeyW", "KeyS"} : Finset String) := by decide
  have hnorm : (Vec3.mk 0 0 5.04).normalize = ⟨0, 0, 1⟩ := by
    rw [Vec3.normalize, if_neg (by norm_num [Vec3.lengthSq])]
    have h1 : (Vec3.mk 0 0 5.04).lengthSq = 5.04 ^ 2 := by norm_num [Vec3.lengthSq]
    rw [h1, Real.sqrt_sq (by norm_num : (0:ℝ) ≤ 5.04)]
    ext <;> simp <;> norm_num
  have hT : (0 : Vec3) + (2.8 : ℝ) • Vec3.mk 0 0 (-1) -
      (2.8 : ℝ) • ((2.8 : ℝ) • Vec3.mk 0 0 (-1)) = ⟨0, 0, 5.04⟩ := by
    ext <;> simp <;> norm_num
  have hmain : updateTargetVelocity false ⟨0, 0, 0, 1⟩ {"KeyW", "KeyS"} 2.8 =
      ⟨0, 0, 2.8⟩ := by
    rw [updateTargetVelocity, if_neg Bool.false_ne_true,
      applyQuaternion_id_forward, applyQuaternion_id_right]
    simp only [if_pos hW, if_pos hS, if_neg hA, if_neg hD]
    rw [hT, if_pos (by norm_num [Vec3.lengthSq]), hnorm]
    ext <;> simp <;> norm_num
  refine ⟨hmain, ?_⟩
  rw [hmain]
  simp only [Vec3.mk_z]
  norm_num

/-! ## Vertical coordinate preservation (C10) -/

theorem targetVelocity_chain_y {F R : Vec3} (hF : F.y = 0) (hR : R.y = 0)
    (keys : Finset String) (ms : ℝ) :
    (let p1 : Vec3 × Vec3 :=
      if "KeyW" ∈ keys then ((0 : Vec3) + ms • F, ms • F) else (0, F)
     let p2 : Vec3 × Vec3 :=
      if "KeyS" ∈ keys then (p1.1 - ms • p1.2, ms • p1.2) else p1
     let p3 : Vec3 × Vec3 :=
      if "KeyA" ∈ keys then (p2.1 + ms • R, ms • R) else (p2.1, R)
     let tv : Vec3 := if "KeyD" ∈ keys then p3.1 - ms • p3.2 else p3.1
     if ms * ms < tv.lengthSq then ms • tv.normalize else tv).y = 0 := by
  by_cases hW : "KeyW" ∈ keys <;> by_cases hS : "KeyS" ∈ keys <;>
    by_cases hA : "KeyA" ∈ keys <;> by_cases hD : "KeyD" ∈ keys <;>
    simp only [hW, hS, hA, hD, if_true, if_false, eq_self_iff_true] <;>
    split <;> simp [hF, hR, Vec3.normalize_y_zero]

theorem updateTargetVelocity_y (isInteracting : Bool) (q : Quaternion)
    (keys : Finset String) (ms : ℝ) :
    (updateTargetVelocity isInteracting q keys ms).y = 0 := by
  cases isInteracting with
  | true => rw [updateTargetVelocity, if_pos rfl]; rfl
  | false =>
    rw [updateTargetVelocity, if_neg Bool.false_ne_true]
    exact targetVelocity_chain_y (Vec3.normalize_y_zero rfl)
      (Vec3.normalize_y_zero rfl) keys ms

theorem rays_y : ∀ d ∈ rays, d.y = 0 := by
  intro d hd
  simp only [rays, List.mem_cons, List.not_mem_nil, or_false] at hd
  rcases hd with rfl | rfl | rfl | rfl | rfl | rfl | rfl | rfl
  · rfl
  · rfl
  · rfl
  · rfl
  · exact Vec3.normalize_y_zero rfl
  · exact Vec3.normalize_y_zero rfl
  · exact Vec3.normalize_y_zero rfl
  · exact Vec3.normalize_y_zero rfl

theorem probeLoop_y {oracle : Oracle} {p : Vec3} {cd : ℝ}
    (honray : ∀ o d dist q, oracle o d = some (dist, q) → q = o + dist • d) :
    ∀ (l : List Vec3), (∀ d ∈ l, d.y = 0) → ∀ (has : Bool) (acc : Vec3),
      acc.y = 0 → (probeLoop oracle p cd l has acc).2.y = 0 := by
  intro l
  induction l with
  | nil => intro _ has acc hacc; exact hacc
  | cons d rest ih =>
    intro hl has acc hacc
    have hd : d.y = 0 := hl d (List.mem_cons_self d rest)
    have hrest : ∀ e ∈ rest, e.y = 0 := fun e he => hl e (List.mem_cons_of_mem d he)
    cases horacle : oracle p d with
    | none => simpa [probeLoop, horacle] using ih hrest has acc hacc
    | some hit =>
      simp only [probeLoop, horacle]
      split
      · apply ih hrest
        have hq : hit.2 = p + hit.1 • d := honray p d hit.1 hit.2 horacle
        have hy : (p - hit.2).y = 0 := by
          rw [hq]
          simp [hd]
        simp [Vec3.normalize_y_zero hy, hacc]
      · exact ih hrest has acc hacc

theorem probe_normal_y {oracle : Oracle} {p : Vec3} {cd : ℝ}
    (honray : ∀ o d dist q, oracle o d = some (dist, q) → q = o + dist • d) :
    (probe oracle p cd).2.y = 0 := by
  have h := @probeLoop_y oracle p cd honray rays rays_y false 0 (by simp)
  rw [probe]
  by_cases hr : (probeLoop oracle p cd rays false 0).1 <;>
    simp [hr, Vec3.normalize_y_zero h, h]

theorem resolveVelocity_y {ws : ℝ} {v n : Vec3} (hv : v.y = 0) (hn : n.y = 0) :
    (resolveVelocity ws v n).y = 0 := by
  rw [resolveVelocity]
  split
  · simp [Vec3.projectOnPlane, Vec3.projectOnVector, hv, hn]
  · exact hv

theorem integrate_y {v tv : Vec3} (hv : v.y = 0) (htv : tv.y = 0)
    (dt a dec : ℝ) : (integrate v tv dt a dec).y = 0 := by
  rw [integrate]
  split
  · simp [Vec3.lerp, hv, htv]
  · simp [hv]

theorem checkCollision_y {oracle : Oracle} {cd ws : ℝ} {v p : Vec3}
    (honray : ∀ o d dist q, oracle o d = some (dist, q) → q = o + dist • d)
    (hv : v.y = 0) :
    (checkCollision oracle cd ws v p).velocity.y = 0 ∧
    (checkCollision oracle cd ws v p).position.y = p.y := by
  have hn : (probe oracle p cd).2.y = 0 := probe_normal_y honray
  rw [checkCollision]
  split
  · exact ⟨resolveVelocity_y hv hn, by simp [hn]⟩
  · exact ⟨hv, rfl⟩

theorem animateStep_y {oracle : Oracle} {isInteracting : Bool}
    {a dec cd ws dtRaw : ℝ} {pos v tv : Vec3}
    (honray : ∀ o d dist q, oracle o d = some (dist, q) → q = o + dist • d)
    (hv : v.y = 0) (htv : tv.y = 0) :
    (animateStep oracle isInteracting a dec cd ws dtRaw pos v tv).velocity.y = 0 ∧
    (animateStep oracle isInteracting a dec cd ws dtRaw pos v tv).position.y = pos.y := by
  have hv1 : (integrate v tv (min dtRaw 0.1) a dec).y = 0 := integrate_y hv htv _ _ _
  have hnew : (pos + min dtRaw 0.1 • integrate v tv (min dtRaw 0.1) a dec).y = pos.y := by
    simp [hv1]
  simp only [animateStep]
  split
  · have hcc := @checkCollision_y oracle cd ws
      (integrate v tv (min dtRaw 0.1) a dec)
      (pos + min dtRaw 0.1 • integrate v tv (min dtRaw 0.1) a dec) honray hv1
    split
    · exact ⟨hcc.1, rfl⟩
    · exact ⟨hcc.1, hcc.2.trans hnew⟩
  · exact ⟨hv1, rfl⟩

/-- Claim C10: every tick preserves the vertical coordinate.  The computed
target velocity has zero y component (forward and right are y-zeroed
before use); given that the scene query returns points on the cast ray
(as `raycaster` does) and the current velocity and target velocity are
horizontal, the tick keeps the velocity horizontal (the horizontal probe
rays give push directions and an aggregate normal with zero y) and the
committed position has the same y as the position before the tick.
-/
theorem C10_y_preserved (isInteracting : Bool) (q : Quaternion)
    (keys : Finset String) (ms a dec cd ws dtRaw : ℝ) (oracle : Oracle)
    (pos v tv : Vec3)
    (honray : ∀ o d dist p2, oracle o d = some (dist, p2) → p2 = o + dist • d)
    (hv : v.y = 0) (htv : tv.y = 0) :
    (updateTargetVelocity isInteracting q keys ms).y = 0 ∧
    (animateStep oracle isInteracting a dec cd ws dtRaw pos v tv).velocity.y = 0 ∧
    (animateStep oracle isInteracting a dec cd ws dtRaw pos v tv).position.y = pos.y :=
  ⟨updateTargetVelocity_y isInteracting q keys ms,
   (animateStep_y honray hv htv).1, (animateStep_y honray hv htv).2⟩

/-- Witness for C10 with the empty scene query and a concrete horizontal
state. -/
theorem C10_y_preserved_witness :
    (updateTargetVelocity false ⟨0, 0, 0, 1⟩ {"KeyW"} 2.8).y = 0 ∧
    (animateStep (fun _ _ => none) false 15 8 0.5 0.98 0.016
        ⟨0, 1.7, 6⟩ ⟨1, 0, 0⟩ ⟨1, 0, 0⟩).velocity.y = 0 ∧
    (animateStep (fun _ _ => none) false 15 8 0.5 0.98 0.016
        ⟨0, 1.7, 6⟩ ⟨1, 0, 0⟩ ⟨1, 0, 0⟩).position.y = (Vec3.mk 0 1.7 6).y :=
  C10_y_preserved false ⟨0, 0, 0, 1⟩ {"KeyW"} 2.8 15 8 0.5 0.98 0.016
    (fun _ _ => none) ⟨0, 1.7, 6⟩ ⟨1, 0, 0⟩ ⟨1, 0, 0⟩
    (fun o d dist p2 h => by cases h) rfl rfl

/-! ## Probe characterization (C9) -/

theorem Vec3.length_one_of_lengthSq_one {v : Vec3} (h : v.lengthSq = 1) :
    v.length = 1 := by
  rw [Vec3.length, h, Real.sqrt_one]

theorem probeLoop_spec (oracle : Oracle) (p : Vec3) (cd : ℝ) :
    ∀ (l : List Vec3) (has : Bool) (acc : Vec3),
      probeLoop oracle p cd l has acc =
        (has || l.any (fun d => rayHits oracle p cd d),
         acc + vsum ((l.filter (fun d => rayHits oracle p cd d)).map
           (pushOf oracle p))) := by
  intro l
  induction l with
  | nil =>
    intro has acc
    simp [probeLoop, vsum, Vec3.add_zero]
  | cons d rest ih =>
    intro has acc
    cases horacle : oracle p d with
    | none =>
      have hrh : rayHits oracle p cd d = false := by simp [rayHits, horacle]
      simp only [probeLoop, horacle]
      rw [ih]
      simp [hrh]
    | some hit =>
      by_cases hlt : hit.1 < cd
      · have hrh : rayHits oracle p cd d = true := by simp [rayHits, horacle, hlt]
        have hpo : pushOf oracle p d = (p - hit.2).normalize := by simp [pushOf, horacle]
        simp only [probeLoop, horacle]
        rw [if_pos hlt, ih]
        simp [hrh, hpo, vsum, Vec3.add_assoc]
      · have hrh : rayHits oracle p cd d = false := by simp [rayHits, horacle, hlt]
        simp only [probeLoop, horacle]
        rw [if_neg hlt, ih]
        simp [hrh]

/-- Claim C9: the probe casts exactly 8 horizontal unit ray directions (four
axis directions plus four normalized diagonals); it reports a collision
iff the nearest intersection of some ray lies within `collisionDistance`; and
in that case the aggregate normal is the normalization of the sum, over
colliding rays, of the normalized vectors from each intersection point
toward the proposed position.
-/
theorem C9_probe_characterization (oracle : Oracle) (p : Vec3) (cd : ℝ) :
    rays.length = 8 ∧
    (∀ d ∈ rays, d.y = 0 ∧ d.length = 1) ∧
    ((probe oracle p cd).1 = true ↔ ∃ d ∈ rays, rayHits oracle p cd d = true) ∧
    ((probe oracle p cd).1 = true →
      (probe oracle p cd).2 =
        (vsum ((rays.filter (fun d => rayHits oracle p cd d)).map
          (pushOf oracle p))).normalize) := by
  have hloop := probeLoop_spec oracle p cd rays false 0
  have h1 : (probe oracle p cd).1 = rays.any (fun d => rayHits oracle p cd d) := by
    rw [probe, hloop]
    simp
  refine ⟨rfl, ?_, ?_, ?_⟩
  · intro d hd
    refine ⟨rays_y d hd, ?_⟩
    simp only [rays, List.mem_cons, List.not_mem_nil, or_false] at hd
    rcases hd with rfl | rfl | rfl | rfl | rfl | rfl | rfl | rfl
    · exact Vec3.length_one_of_lengthSq_one (by norm_num [Vec3.lengthSq])
    · exact Vec3.length_one_of_lengthSq_one (by norm_num [Vec3.lengthSq])
    · exact Vec3.length_one_of_lengthSq_one (by norm_num [Vec3.lengthSq])
    · exact Vec3.length_one_of_lengthSq_one (by norm_num [Vec3.lengthSq])
    · exact Vec3.length_normalize (by norm_num [Vec3.lengthSq])
    · exact Vec3.length_normalize (by norm_num [Vec3.lengthSq])
    · exact Vec3.length_normalize (by norm_num [Vec3.lengthSq])
    · exact Vec3.length_normalize (by norm_num [Vec3.lengthSq])
  · rw [h1]
    simp [List.any_eq_true]
  · intro hcol
    have hany : rays.any (fun d => rayHits oracle p cd d) = true := by
      rw [← h1]
      exact hcol
    rw [probe]
    simp [hloop, hany, Vec3.zero_add]

theorem probeLoop_constHit (p : Vec3) :
    ∀ (l : List Vec3) (has : Bool) (acc : Vec3),
      probeLoop constHit p 0.5 l has acc = (if l.isEmpty then has else true, acc) := by
  intro l
  induction l with
  | nil => intro has acc; simp [probeLoop]
  | cons d rest ih =>
    intro has acc
    simp only [probeLoop, constHit]
    rw [if_pos (by norm_num : (0.3 : ℝ) < 0.5), ih]
    simp [Vec3.sub_self, Vec3.add_zero]

theorem probe_constHit (p : Vec3) : probe constHit p 0.5 = (true, 0) := by
  rw [probe, probeLoop_constHit]
  simp [rays]

/-- Witness for C9 at the degenerate scene query, discharging both the
collision-report hypothesis and the normal formula. -/
theorem C9_probe_characterization_witness :
    ((probe constHit (⟨0, 0, 0⟩ : Vec3) 0.5).1 = true ↔
      ∃ d ∈ rays, rayHits constHit ⟨0, 0, 0⟩ 0.5 d = true) ∧
    (probe constHit (⟨0, 0, 0⟩ : Vec3) 0.5).2 =
      (vsum ((rays.filter (fun d => rayHits constHit ⟨0, 0, 0⟩ 0.5 d)).map
        (pushOf constHit ⟨0, 0, 0⟩))).normalize :=
  ⟨(C9_probe_characterization constHit ⟨0, 0, 0⟩ 0.5).2.2.1,
   (C9_probe_characterization constHit ⟨0, 0, 0⟩ 0.5).2.2.2
     (by rw [probe_constHit])⟩

/-! ## The collision tick does not commit the resolved position (C3) -/

theorem checkCollision_constHit (v p : Vec3) :
    checkCollision constHit 0.5 0.98 v p =
      { collided := true, velocity := v, normal := 0, position := p } := by
  have hres : resolveVelocity 0.98 v (0 : Vec3) = v := by
    rw [resolveVelocity, if_neg]
    simp [Vec3.dot]
  have hp : p + ((0.5 : ℝ) - 0.05) • (0 : Vec3) = p := by
    ext <;> simp
  rw [checkCollision, probe_constHit]
  simp [hres, hp]

theorem checkCollision_position_of_collided {oracle : Oracle} {cd ws : ℝ}
    {v p : Vec3} (h : (checkCollision oracle cd ws v p).collided = true) :
    (checkCollision oracle cd ws v p).position =
      p + (cd - 0.05) • (checkCollision oracle cd ws v p).normal ∧
    (checkCollision oracle cd ws v p).velocity =
      resolveVelocity ws v (checkCollision oracle cd ws v p).normal := by
  by_cases hp : (probe oracle p cd).1
  · constructor <;> simp [checkCollision, hp]
  · rw [checkCollision] at h
    simp [hp] at h

/-- Claim C3 (amended): on every tick where the probe detects a collision at
the proposed position, the loop resolves the velocity and computes the
proposed position pushed out along the aggregate normal by
`collisionDistance - 0.05`, but it does not commit that resolved
position: the viewpoint position is left unchanged for that tick.
-/
theorem C3_collision_tick_keeps_position (oracle : Oracle) (isInteracting : Bool)
    (a dec cd ws dtRaw : ℝ) (pos v tv : Vec3)
    (hcol : (checkCollision oracle cd ws (integrate v tv (min dtRaw 0.1) a dec)
        (pos + min dtRaw 0.1 • integrate v tv (min dtRaw 0.1) a dec)).collided = true) :
    (checkCollision oracle cd ws (integrate v tv (min dtRaw 0.1) a dec)
        (pos + min dtRaw 0.1 • integrate v tv (min dtRaw 0.1) a dec)).position =
      (pos + min dtRaw 0.1 • integrate v tv (min dtRaw 0.1) a dec) +
        (cd - 0.05) • (checkCollision oracle cd ws
          (integrate v tv (min dtRaw 0.1) a dec)
          (pos + min dtRaw 0.1 • integrate v tv (min dtRaw 0.1) a dec)).normal ∧
    (animateStep oracle isInteracting a dec cd ws dtRaw pos v tv).position = pos := by
  refine ⟨(checkCollision_position_of_collided hcol).1, ?_⟩
  simp only [animateStep, hcol, eq_self_iff_true, if_true]
  split
  · rfl
  · rfl

/-- Witness for C3 (amended) at the degenerate scene query. -/
theorem C3_collision_tick_keeps_position_witness :
    (checkCollision constHit 0.5 0.98
        (integrate ⟨0, 0, 1⟩ ⟨0, 0, 1⟩ (min (0.1 : ℝ) 0.1) 15 8)
        ((⟨0, 0, 0⟩ : Vec3) + min (0.1 : ℝ) 0.1 •
          integrate ⟨0, 0, 1⟩ ⟨0, 0, 1⟩ (min (0.1 : ℝ) 0.1) 15 8)).position =
      ((⟨0, 0, 0⟩ : Vec3) + min (0.1 : ℝ) 0.1 •
          integrate ⟨0, 0, 1⟩ ⟨0, 0, 1⟩ (min (0.1 : ℝ) 0.1) 15 8) +
        ((0.5 : ℝ) - 0.05) • (checkCollision constHit 0.5 0.98
          (integrate ⟨0, 0, 1⟩ ⟨0, 0, 1⟩ (min (0.1 : ℝ) 0.1) 15 8)
          ((⟨0, 0, 0⟩ : Vec3) + min (0.1 : ℝ) 0.1 •
            integrate ⟨0, 0, 1⟩ ⟨0, 0, 1⟩ (min (0.1 : ℝ) 0.1) 15 8)).normal ∧
    (animateStep constHit false 15 8 0.5 0.98 0.1
        ⟨0, 0, 0⟩ ⟨0, 0, 1⟩ ⟨0, 0, 1⟩).position = ⟨0, 0, 0⟩ :=
  C3_collision_tick_keeps_position constHit false 15 8 0.5 0.98 0.1
    ⟨0, 0, 0⟩ ⟨0, 0, 1⟩ ⟨0, 0, 1⟩ (by rw [checkCollision_constHit])

/-- Claim C3 counterexample: a concrete collision tick showing the resolved,
pushed-out position is discarded.  With the degenerate scene query, the
integrated velocity is `(0,0,1)` (target equal to current velocity), the
proposed position `(0,0,0.1)` is flagged as colliding and its resolved
pushed position is `(0,0,0.1)` itself (zero aggregate normal), yet the
tick commits `(0,0,0)` — the viewpoint did not move to the resolved
position, refuting "commits that resolved viewpoint position".
-/
theorem C3_committed_differs_from_resolved :
    integrate ⟨0, 0, 1⟩ ⟨0, 0, 1⟩ (min (0.1 : ℝ) 0.1) 15 8 = ⟨0, 0, 1⟩ ∧
    (checkCollision constHit 0.5 0.98 ⟨0, 0, 1⟩ ⟨0, 0, 0.1⟩).collided = true ∧
    (checkCollision constHit 0.5 0.98 ⟨0, 0, 1⟩ ⟨0, 0, 0.1⟩).position = ⟨0, 0, 0.1⟩ ∧
    (animateStep constHit false 15 8 0.5 0.98 0.1
        ⟨0, 0, 0⟩ ⟨0, 0, 1⟩ ⟨0, 0, 1⟩).position = ⟨0, 0, 0⟩ ∧
    (⟨0, 0, 0.1⟩ : Vec3) ≠ ⟨0, 0, 0⟩ := by
  have hint : integrate ⟨0, 0, 1⟩ ⟨0, 0, 1⟩ (min (0.1 : ℝ) 0.1) 15 8 = ⟨0, 0, 1⟩ := by
    rw [integrate, if_pos (by norm_num [Vec3.lengthSq])]
    ext <;> simp [Vec3.lerp]
  refine ⟨hint, ?_, ?_, ?_, ?_⟩
  · rw [checkCollision_constHit]
  · rw [checkCollision_constHit]
  · simp only [animateStep, hint]
    rw [if_pos ⟨by norm_num [Vec3.lengthSq], trivial⟩, checkCollision_constHit]
    rfl
  · intro h
    have hz := congrArg Vec3.z h
    simp only [Vec3.mk_z] at hz
    norm_num at hz

end Museum
